import Mathlib

/-!
Verification of the gargantua/starless renderer.

Shallow embedding of the two crates' core code over the reals:
`f64` is modelled as `ℝ`, `u32` pixel and loop counters as `ℕ`,
`Option` as `Option`.  Vectors (`nalgebra::Vector3<f64>` /
`Point3<f64>`) are a three-field structure; the nalgebra camera
types (`Perspective3`, `Isometry3`, `UnitQuaternion`) are embedded
from nalgebra's own definitions (matrix entries m00, m11, m22, m23
of the perspective matrix; rotation quaternion plus translation for
the isometry).  Textures and colors are external collaborators in
the design and enter only as opaque sampling functions.
-/

/-! ## Vectors (nalgebra Vector3<f64> / Point3<f64>) -/

structure Vec3 where
  x : ℝ
  y : ℝ
  z : ℝ

noncomputable def Vec3.add (a b : Vec3) : Vec3 := ⟨a.x + b.x, a.y + b.y, a.z + b.z⟩

noncomputable def Vec3.sub (a b : Vec3) : Vec3 := ⟨a.x - b.x, a.y - b.y, a.z - b.z⟩

noncomputable def Vec3.smul (c : ℝ) (v : Vec3) : Vec3 := ⟨c * v.x, c * v.y, c * v.z⟩

noncomputable def Vec3.div (v : Vec3) (c : ℝ) : Vec3 := ⟨v.x / c, v.y / c, v.z / c⟩

noncomputable def Vec3.dot (a b : Vec3) : ℝ := a.x * b.x + a.y * b.y + a.z * b.z

noncomputable def Vec3.cross (a b : Vec3) : Vec3 :=
  ⟨a.y * b.z - a.z * b.y, a.z * b.x - a.x * b.z, a.x * b.y - a.y * b.x⟩

noncomputable instance : Add Vec3 := ⟨Vec3.add⟩

noncomputable instance : Sub Vec3 := ⟨Vec3.sub⟩

noncomputable instance : SMul ℝ Vec3 := ⟨Vec3.smul⟩

instance : Zero Vec3 := ⟨⟨0, 0, 0⟩⟩

noncomputable def Vec3.norm (v : Vec3) : ℝ := Real.sqrt (v.dot v)

/-- nalgebra's `normalize`: the vector divided by its euclidean norm. -/
noncomputable def Vec3.normalize (v : Vec3) : Vec3 := v.div v.norm

/-! ## Particle (starless/src/physics.rs and gargantua/src/physics.rs,
which are identical on the fields and methods used here) -/

structure Particle where
  pos : Vec3
  vel : Vec3
  acc : Vec3

noncomputable def Particle.add_force (p : Particle) (force : Vec3) : Particle :=
  { p with acc := p.acc + force }

/-- `Particle::update`: `vel += acc * dt; pos += vel * dt; acc = zeros()`.
The position update uses the already-updated velocity. -/
noncomputable def Particle.update (p : Particle) (dt : ℝ) : Particle :=
  let vel := p.vel + dt • p.acc
  { pos := p.pos + dt • vel, vel := vel, acc := 0 }

/-! ## Sphere and Ray (raytrace.rs of both crates; the starless ray has a
plain direction vector, the gargantua one a unit vector — both are a
`Vec3` here, and the intersection code is character for character the
same in the two crates) -/

structure Sphere where
  pos : Vec3
  radius : ℝ

structure Ray where
  origin : Vec3
  direction : Vec3

/-- `Particle::from_ray`: position from the ray origin, velocity from the
ray direction, zero acceleration. -/
noncomputable def Particle.from_ray (r : Ray) : Particle := ⟨r.origin, r.direction, 0⟩

/-- `Sphere::intersect` (gargantua/src/raytrace.rs:53 and
starless/src/raytrace.rs:65): the analytic ray-sphere quadratic. -/
noncomputable def Sphere.intersect (s : Sphere) (ray : Ray) : Option ℝ :=
  let l := s.pos - ray.origin
  let adj2 := l.dot ray.direction
  let d2 := l.dot l - adj2 * adj2
  let r2 := s.radius * s.radius
  if d2 > r2 then none
  else
    let thc := Real.sqrt (r2 - d2)
    let t0 := adj2 - thc
    let t1 := adj2 + thc
    if t0 < 0 ∧ t1 < 0 then none
    else if t0 < 0 then some t1
    else if t1 < 0 then some t0
    else some (if t0 < t1 then t0 else t1)

/-! ## The curved-spacetime integrator (starless/src/schwardzchild.rs) -/

/-- The denominator `pos_fifth = pos.dot(&pos).powf(2.5)` of
`gr_potential` (schwardzchild.rs:206). -/
noncomputable def gr_pos_fifth (pos : Vec3) : ℝ := (pos.dot pos) ^ (2.5 : ℝ)

/-- `gr_potential` (schwardzchild.rs:205): `-1.5 * h2 * pos / pos_fifth`,
an unconditional division by `pos_fifth`. -/
noncomputable def gr_potential (pos : Vec3) (h2 : ℝ) : Vec3 :=
  ((-1.5 * h2) • pos).div (gr_pos_fifth pos)

/-- One iteration of the loop body of `GRParticle::intersect`
(schwardzchild.rs:42-45): accumulate `gr_potential(pos - sphere.pos, 1.0)`
— the second argument is the literal `1.0` of the source — then
`Particle::update`. -/
noncomputable def GRParticle.step (sphere : Sphere) (dt : ℝ) (p : Particle) : Particle :=
  let from_sphere := p.pos - sphere.pos
  (p.add_force (gr_potential from_sphere 1)).update dt

/-- The capture test of `GRParticle::intersect` (schwardzchild.rs:46-49):
squared distance to the sphere center strictly below the squared radius. -/
def Sphere.captures (s : Sphere) (p : Particle) : Prop :=
  (s.pos - p.pos).dot (s.pos - p.pos) < s.radius * s.radius

open Classical in
/-- `GRParticle::intersect` (schwardzchild.rs:41-53) as fuel recursion on
`max_iter`; the second component is the mutated particle left in `self`
when the method returns. -/
noncomputable def GRParticle.intersectAux (sphere : Sphere) (dt : ℝ) :
    ℕ → Particle → Option Vec3 × Particle
  | 0, p => (none, p)
  | n + 1, p =>
    let p' := GRParticle.step sphere dt p
    if sphere.captures p' then (some p'.pos, p')
    else GRParticle.intersectAux sphere dt n p'

/-! ## nalgebra camera types: UnitQuaternion, Isometry3, Perspective3 -/

structure Quat where
  w : ℝ
  x : ℝ
  y : ℝ
  z : ℝ

noncomputable def Quat.mul (a b : Quat) : Quat :=
  ⟨a.w * b.w - a.x * b.x - a.y * b.y - a.z * b.z,
   a.w * b.x + a.x * b.w + a.y * b.z - a.z * b.y,
   a.w * b.y - a.x * b.z + a.y * b.w + a.z * b.x,
   a.w * b.z + a.x * b.y - a.y * b.x + a.z * b.w⟩

noncomputable def Quat.conjugate (q : Quat) : Quat := ⟨q.w, -q.x, -q.y, -q.z⟩

/-- Rotation of a vector by a unit quaternion: the vector part of
`q * (0, v) * q.conjugate` (nalgebra's `UnitQuaternion::transform_vector`;
its inverse rotation uses the conjugate, which is the inverse of a unit
quaternion). -/
noncomputable def Quat.rotate (q : Quat) (v : Vec3) : Vec3 :=
  let r := (q.mul ⟨0, v.x, v.y, v.z⟩).mul q.conjugate
  ⟨r.x, r.y, r.z⟩

structure Isometry3 where
  rotation : Quat
  translation : Vec3

noncomputable def Isometry3.identity : Isometry3 := ⟨⟨1, 0, 0, 0⟩, ⟨0, 0, 0⟩⟩

/-- nalgebra `Isometry3::transform_point`: rotate, then translate. -/
noncomputable def Isometry3.transform_point (iso : Isometry3) (p : Vec3) : Vec3 :=
  iso.rotation.rotate p + iso.translation

/-- nalgebra `Isometry3::transform_vector`: rotate only. -/
noncomputable def Isometry3.transform_vector (iso : Isometry3) (v : Vec3) : Vec3 :=
  iso.rotation.rotate v

/-- nalgebra `Isometry3::inverse_transform_point`: undo the translation,
then rotate by the inverse (conjugate) rotation. -/
noncomputable def Isometry3.inverse_transform_point (iso : Isometry3) (p : Vec3) : Vec3 :=
  iso.rotation.conjugate.rotate (p - iso.translation)

/-- The entries nalgebra's `Perspective3` stores at (0,0), (1,1), (2,2)
and (2,3); the rest of its homogeneous matrix is constant. -/
structure Perspective where
  m00 : ℝ
  m11 : ℝ
  m22 : ℝ
  m23 : ℝ

/-- nalgebra `Perspective3::new(aspect, fovy, znear, zfar)`: `set_fovy`
puts `1 / tan(fovy / 2)` at (1,1) (and, starting from the identity matrix,
the same value at (0,0)), `set_aspect` replaces (0,0) by `m11 / aspect`,
and `set_znear_and_zfar` fills the third row. -/
noncomputable def Perspective.create (aspect fovy znear zfar : ℝ) : Perspective :=
  let m11 := 1 / Real.tan (fovy / 2)
  { m00 := m11 / aspect
    m11 := m11
    m22 := (zfar + znear) / (znear - zfar)
    m23 := zfar * znear * 2 / (znear - zfar) }

/-- nalgebra `Perspective3::aspect()`: `m11 / m00`. -/
noncomputable def Perspective.aspect (p : Perspective) : ℝ := p.m11 / p.m00

/-- nalgebra `Perspective3::set_aspect`. -/
noncomputable def Perspective.set_aspect (p : Perspective) (aspect : ℝ) : Perspective :=
  { p with m00 := p.m11 / aspect }

/-- nalgebra `Perspective3::unproject_point`. -/
noncomputable def Perspective.unproject_point (per : Perspective) (p : Vec3) : Vec3 :=
  let inverse_denom := per.m23 / (p.z + per.m22)
  ⟨p.x * inverse_denom / per.m00, p.y * inverse_denom / per.m11, -inverse_denom⟩

/-- nalgebra `Perspective3::project_point`. -/
noncomputable def Perspective.project_point (per : Perspective) (p : Vec3) : Vec3 :=
  let inverse_denom := -1 / p.z
  ⟨per.m00 * p.x * inverse_denom, per.m11 * p.y * inverse_denom,
   (per.m22 * p.z + per.m23) * inverse_denom⟩

/-- nalgebra `Perspective3::project_vector`: the z component is `m22`. -/
noncomputable def Perspective.project_vector (per : Perspective) (v : Vec3) : Vec3 :=
  let inverse_denom := -1 / v.z
  ⟨per.m00 * v.x * inverse_denom, per.m11 * v.y * inverse_denom, per.m22⟩

structure Camera where
  width : ℕ
  height : ℕ
  isometry : Isometry3
  perspective : Perspective

/-- The scene of either crate, restricted to the state the modelled
operations touch (the sphere geometry and the optional background texture
are carried separately, textures being opaque collaborators). -/
structure Scene where
  camera : Camera

/-- `Scene::set_size` (gargantua/src/raytrace.rs:141 and
starless/src/raytrace.rs:168, identical): store the dimensions and
`set_aspect(width as f64 / height as f64)`. -/
noncomputable def Scene.set_size (sc : Scene) (width height : ℕ) : Scene :=
  { camera := { sc.camera with
      width := width
      height := height
      perspective := sc.camera.perspective.set_aspect ((width : ℝ) / (height : ℝ)) } }

/-- `cartesian_to_spherical` (gargantua/src/utils.rs:115 and
starless/src/utils.rs:115, identical): `(r, theta, phi)` with
`r = sqrt(v . v)`, `phi = v.y.atan2(v.x)`, `theta = (v.z / r).acos()`.
`atan2 y x` is embedded as the argument of the complex number `x + i y`,
which agrees with `f64::atan2` on every input with no negative zeroes. -/
noncomputable def cartesian_to_spherical (v : Vec3) : ℝ × ℝ × ℝ :=
  let r := Real.sqrt (v.dot v)
  let phi := Complex.arg ⟨v.x, v.y⟩
  let theta := Real.arccos (v.z / r)
  (r, theta, phi)

namespace Gargantua

/-- `Camera::new` (gargantua/src/raytrace.rs:88): the aspect argument
given to `Perspective3::new` is `height as f64 / width as f64`, and the
field of view is converted by `f64::to_radians`, i.e. `fov * (π / 180)`. -/
noncomputable def Camera.new (width height : ℕ) (fov : ℝ) : Camera :=
  { width := width
    height := height
    perspective := Perspective.create ((height : ℝ) / (width : ℝ)) (fov * (Real.pi / 180)) 0.01 200
    isometry := Isometry3.identity }

/-- `Camera::create_primary` (gargantua/src/raytrace.rs:97-112). -/
noncomputable def Camera.create_primary (cam : Camera) (px py : ℕ) : Ray :=
  let nx := (px : ℝ) / (cam.width : ℝ)
  let ny := (py : ℝ) / (cam.height : ℝ)
  let ndsx := nx * 2 - 1
  let ndsy := ny * 2 - 1
  let ndc_near : Vec3 := ⟨ndsx, ndsy, -1⟩
  let ndc_far : Vec3 := ⟨ndsx, ndsy, 1⟩
  let origin := cam.isometry.inverse_transform_point (cam.perspective.unproject_point ndc_near)
  let view_far := cam.isometry.inverse_transform_point (cam.perspective.unproject_point ndc_far)
  { origin := origin, direction := (view_far - origin).normalize }

/-- `Sphere::texture_coords` (gargantua/src/raytrace.rs:80-84):
`(theta / π, 0.5 * phi / π + 0.5)` of the hit point offset from the
center. -/
noncomputable def Sphere.texture_coords (s : Sphere) (hit : Vec3) : ℝ × ℝ :=
  let dir := hit - s.pos
  let sph := cartesian_to_spherical dir
  (sph.2.1 / Real.pi, 0.5 * sph.2.2 / Real.pi + 0.5)

/-- The background branch of `Scene::render_px`
(gargantua/src/raytrace.rs:190-194): the UV the background texture is
sampled at, computed from the ray direction. -/
noncomputable def Scene.background_uv (dir : Vec3) : ℝ × ℝ :=
  let sph := cartesian_to_spherical dir
  (sph.2.1 / Real.pi, 0.5 * sph.2.2 / Real.pi + 0.5)

end Gargantua

namespace Starless

/-- `Camera::new` (starless/src/raytrace.rs:102): aspect `height / width`;
the field of view is passed to `Perspective3::new` with no degree-to-radian
conversion. -/
noncomputable def Camera.new (width height : ℕ) (fov : ℝ) : Camera :=
  { width := width
    height := height
    perspective := Perspective.create ((height : ℝ) / (width : ℝ)) fov 0.01 200
    isometry := Isometry3.identity }

/-- `Camera::transform` (starless/src/raytrace.rs:111). -/
noncomputable def Camera.transform (cam : Camera) (v : Vec3) : Vec3 :=
  cam.perspective.project_point (cam.isometry.transform_point v)

/-- `Camera::rotate` (starless/src/raytrace.rs:120). -/
noncomputable def Camera.rotate (cam : Camera) (v : Vec3) : Vec3 :=
  cam.perspective.project_vector (cam.isometry.transform_vector v)

/-- `Camera::transform_ray` (starless/src/raytrace.rs:125). -/
noncomputable def Camera.transform_ray (cam : Camera) (r : Ray) : Ray :=
  ⟨Camera.transform cam r.origin, Camera.rotate cam r.direction⟩

/-- `Camera::create_primary` (starless/src/raytrace.rs:132-141): the
point `(2x/w - 1, 2y/h - 1, 0)` and the fixed direction `(0, 0, -1)`
pushed through `transform_ray` — the forward projection, not an
unprojection. -/
noncomputable def Camera.create_primary (cam : Camera) (px py : ℕ) : Ray :=
  let origin : Vec3 :=
    ⟨2 * (px : ℝ) / (cam.width : ℝ) - 1, 2 * (py : ℝ) / (cam.height : ℝ) - 1, 0⟩
  let direction : Vec3 := ⟨0, 0, -1⟩
  Camera.transform_ray cam ⟨origin, direction⟩

/-- `Sphere::texture_coords` (starless/src/raytrace.rs:92-98):
`(theta / (π/2), phi / π)`. -/
noncomputable def Sphere.texture_coords (s : Sphere) (hit : Vec3) : ℝ × ℝ :=
  let dir := hit - s.pos
  let r := Real.sqrt (dir.dot dir)
  let phi := Complex.arg ⟨dir.x, dir.y⟩
  let theta := Real.arccos (dir.z / r)
  (theta / (Real.pi / 2), phi / Real.pi)

/-- The background branch of the flat `Scene::render_px`
(starless/src/raytrace.rs:217-221): `(theta / π, phi / (π/2))`. -/
noncomputable def Scene.background_uv (dir : Vec3) : ℝ × ℝ :=
  let sph := cartesian_to_spherical dir
  (sph.2.1 / Real.pi, sph.2.2 / (Real.pi / 2))

/-- The background branch of `GRScene::render_px`
(starless/src/schwardzchild.rs:191-199): `(theta / π * 2, phi / π)`,
computed from the direction it is given. -/
noncomputable def GRScene.background_uv (dir : Vec3) : ℝ × ℝ :=
  let r := Real.sqrt (dir.dot dir)
  let phi := Complex.arg ⟨dir.x, dir.y⟩
  let theta := Real.arccos (dir.z / r)
  (theta / Real.pi * 2, phi / Real.pi)

/-- `GRScene::render_px` (starless/src/schwardzchild.rs:182-202) with the
two texture sampling capabilities as opaque uv functions into an opaque
color type: `intersect` maps a hit to the sphere texture's uv, and the
`or_else` branch samples the background at the uv of the mutated
particle's velocity (the `unwrap_or` default is dead, as `or_else`
always produces a value). -/
noncomputable def GRScene.render_px (Color : Type) (sphere : Sphere)
    (sphere_uv bg_uv : ℝ × ℝ → Color) (dt : ℝ) (max_iter : ℕ) (ray : Ray) : Color :=
  let res := GRParticle.intersectAux sphere dt max_iter (Particle.from_ray ray)
  match res.1 with
  | some v => sphere_uv (Sphere.texture_coords sphere v)
  | none => bg_uv (GRScene.background_uv res.2.vel)

/-- The pixel-assembly loop of the sequential `GRScene::render`
(starless/src/schwardzchild.rs:75-87) over an abstract per-pixel color
function: `enumerate_pixels_mut` iterates pixels row-major, and the
write `*p = color_to_rgba(&self.render_px(..))` sits inside the
`if let Some(f) = reporter` block of the source, so without a reporter
every pixel keeps the initial value `DynamicImage::new_rgba8` zero-fills
it with (the `blank` argument). -/
def GRScene.render_assemble (Color : Type) (w h : ℕ) (render_px : ℕ → ℕ → Color)
    (reporter : Option Unit) (blank : Color) : ℕ × ℕ → Color :=
  ((List.range h).flatMap fun y => (List.range w).map fun x => (x, y)).foldl
    (fun buf p =>
      match reporter with
      | some _ => Function.update buf p (render_px p.1 p.2)
      | none => buf)
    (fun _ => blank)

end Starless

/-! ## The tile iterator and the parallel render engine's tiling
(starless/src/utils.rs, gargantua/src/raytrace.rs; these are `u32`
computations, embedded over ℕ) -/

structure DimIterator where
  width : ℕ
  height : ℕ
  x : ℕ
  y : ℕ
  sx : ℕ
  sy : ℕ
  started : Bool
  done : Bool

/-- `DimIterator::create(width, height, x, y)` (starless/src/utils.rs:71). -/
def DimIterator.create (width height x y : ℕ) : DimIterator :=
  { width := width, height := height, x := 0, y := 0, sx := x, sy := y,
    started := false, done := false }

/-- `DimIterator::next` (starless/src/utils.rs:21-47). `none` models the
iterator finishing; the source's mutations on the finishing paths only
set `done`, which no later call observes. -/
def DimIterator.next (it : DimIterator) : Option ((ℕ × ℕ) × DimIterator) :=
  if it.done then none
  else if it.width = 0 ∨ it.height = 0 then none
  else if !it.started then some ((it.sx, it.sy), { it with started := true })
  else
    let x := it.x + 1
    if it.width ≤ x then
      let y := it.y + 1
      if it.height ≤ y then none
      else some ((it.sx + 0, it.sy + y), { it with x := 0, y := y })
    else some ((it.sx + x, it.sy + it.y), { it with x := x })

/-- Driving the iterator with fuel: the items a `for` loop receives. The
iterator finishes before the fuel runs out whenever fuel ≥ width * height. -/
def DimIterator.toList : ℕ → DimIterator → List (ℕ × ℕ)
  | 0, _ => []
  | fuel + 1, it =>
    match it.next with
    | none => []
    | some (p, it') => p :: DimIterator.toList fuel it'

/-- The coordinates `DimIterator::create(w, h, sx, sy)` yields. -/
def DimIterator.items (w h sx sy : ℕ) : List (ℕ × ℕ) :=
  DimIterator.toList (w * h) (DimIterator.create w h sx sy)

/-- The coordinates of all (x, y, color) messages the tile tasks of
`render` send (gargantua/src/raytrace.rs:234-257, starless identical):
tiles (cx, cy) with cx < 1 + width / 32 and cy < 1 + height / 32, each
iterating `DimIterator::create(min 32 (width - 32 cx),
min 32 (height - 32 cy), 32 cx, 32 cy)`. For every such cx, 32 * cx ≤
width, so the source's `u32` subtraction never wraps and truncated ℕ
subtraction is exact (same for cy). -/
def render_messages (width height : ℕ) : List (ℕ × ℕ) :=
  (List.range (1 + height / 32)).flatMap fun cy =>
    (List.range (1 + width / 32)).flatMap fun cx =>
      DimIterator.items (min 32 (width - 32 * cx)) (min 32 (height - 32 * cy))
        (32 * cx) (32 * cy)

/-- The consumer's miss counter (gargantua/src/raytrace.rs:281-285): one
miss per received message whose coordinates fall out of the image bounds
(`buf.in_bounds(x, y)` is `x < width && y < height`). The channel-closed
miss path never fires in the sequential model, where every sent message
is received. -/
def render_misses (width height : ℕ) : ℕ :=
  ((render_messages width height).filter fun p =>
    !(decide (p.1 < width) && decide (p.2 < height))).length

/-- The h² of the spec's words, for comparison with the source: the
squared magnitude of the cross product of the particle's position and
velocity. The source never computes it (`GRParticle::intersect` passes
the literal `1.0` to `gr_potential`). -/
noncomputable def spec_h2 (p : Particle) : ℝ :=
  (p.pos.cross p.vel).dot (p.pos.cross p.vel)

/-! ## Helper lemmas: componentwise vector arithmetic -/

theorem vec3_add (a b : Vec3) : a + b = ⟨a.x + b.x, a.y + b.y, a.z + b.z⟩ := rfl

theorem vec3_sub (a b : Vec3) : a - b = ⟨a.x - b.x, a.y - b.y, a.z - b.z⟩ := rfl

theorem vec3_smul (c : ℝ) (v : Vec3) : c • v = ⟨c * v.x, c * v.y, c * v.z⟩ := rfl

theorem vec3_zero : (0 : Vec3) = ⟨0, 0, 0⟩ := rfl

theorem vec3_dot_nonneg (v : Vec3) : 0 ≤ v.dot v := by
  simp only [Vec3.dot]
  nlinarith [mul_self_nonneg v.x, mul_self_nonneg v.y, mul_self_nonneg v.z]

/-- The denominator of `gr_potential` is the fifth power of the distance:
`(v . v) ^ 2.5 = |v| ^ 5`. -/
theorem gr_pos_fifth_eq_norm_pow (v : Vec3) : gr_pos_fifth v = v.norm ^ (5 : ℕ) := by
  have hd : 0 ≤ v.dot v := vec3_dot_nonneg v
  have hs : 0 ≤ Real.sqrt (v.dot v) := Real.sqrt_nonneg _
  rw [gr_pos_fifth, Vec3.norm]
  nth_rewrite 1 [← Real.sq_sqrt hd]
  rw [← Real.rpow_natCast (Real.sqrt (v.dot v)) 2, ← Real.rpow_mul hs,
    ← Real.rpow_natCast (Real.sqrt (v.dot v)) 5]
  norm_num

/-! ## C9 -/

/-- C9 counterexample: with the particle exactly at the sphere center the
radial vector is zero, the denominator `pos_fifth` of the force is exactly
0 — nothing clamps it — and `gr_potential` is precisely that division by
zero (nothing skips it). -/
theorem C9_zero_denominator :
    gr_pos_fifth ⟨0, 0, 0⟩ = 0 ∧
    gr_potential ⟨0, 0, 0⟩ 1 = Vec3.div (((-1.5 : ℝ) * 1) • (⟨0, 0, 0⟩ : Vec3)) 0 := by
  have hdot : (Vec3.mk 0 0 0).dot ⟨0, 0, 0⟩ = 0 := by
    simp [Vec3.dot]
  have h0 : gr_pos_fifth ⟨0, 0, 0⟩ = 0 := by
    rw [gr_pos_fifth, hdot]
    exact Real.zero_rpow (by norm_num)
  exact ⟨h0, by rw [gr_potential, h0]⟩

/-- C9 (amended): the degenerate case is unguarded: at zero radial
distance the denominator is exactly zero, `gr_potential` still performs
the division (which in the source's IEEE f64 arithmetic yields NaN
components 0/0), and every step of `GRParticle::intersect` applies the
force unconditionally — no skip and no clamp exist. -/
theorem C9_unguarded_division (h2 dt : ℝ) (s : Sphere) (p : Particle) :
    gr_pos_fifth ⟨0, 0, 0⟩ = 0 ∧
    gr_potential ⟨0, 0, 0⟩ h2 = Vec3.div (((-1.5 : ℝ) * h2) • (⟨0, 0, 0⟩ : Vec3)) 0 ∧
    GRParticle.step s dt p = (p.add_force (gr_potential (p.pos - s.pos) 1)).update dt := by
  have hdot : (Vec3.mk 0 0 0).dot ⟨0, 0, 0⟩ = 0 := by
    simp [Vec3.dot]
  have h0 : gr_pos_fifth ⟨0, 0, 0⟩ = 0 := by
    rw [gr_pos_fifth, hdot]
    exact Real.zero_rpow (by norm_num)
  exact ⟨h0, by rw [gr_potential, h0], rfl⟩

/-! ## C1 -/

/-- C1 counterexample: for the initial state at position (2,0,0) with
velocity (0,1,0) and the unit sphere at the origin, the spec's h² is
|(2,0,0) × (0,1,0)|² = 4, and the velocity after the first integration
step of the code (which passes the constant 1.0 as h²) differs from the
velocity after the step the claim describes (force computed with that
h²): the x components are -3/32 against -3/8. -/
theorem C1_spec_h2_differs :
    (GRParticle.step ⟨⟨0, 0, 0⟩, 1⟩ 1 ⟨⟨2, 0, 0⟩, ⟨0, 1, 0⟩, ⟨0, 0, 0⟩⟩).vel ≠
      ((Particle.add_force ⟨⟨2, 0, 0⟩, ⟨0, 1, 0⟩, ⟨0, 0, 0⟩⟩
          (gr_potential ((Particle.mk ⟨2, 0, 0⟩ ⟨0, 1, 0⟩ ⟨0, 0, 0⟩).pos -
            (Sphere.mk ⟨0, 0, 0⟩ 1).pos)
            (spec_h2 ⟨⟨2, 0, 0⟩, ⟨0, 1, 0⟩, ⟨0, 0, 0⟩⟩))).update 1).vel := by
  have hd : (Vec3.mk 2 0 0).dot ⟨2, 0, 0⟩ = 4 := by
    simp only [Vec3.dot]
    norm_num
  have hpf : gr_pos_fifth ⟨2, 0, 0⟩ = 32 := by
    rw [gr_pos_fifth_eq_norm_pow, Vec3.norm, hd, show (4 : ℝ) = 2 ^ 2 by norm_num,
      Real.sqrt_sq (by norm_num : (0 : ℝ) ≤ 2)]
    norm_num
  have hs : spec_h2 ⟨⟨2, 0, 0⟩, ⟨0, 1, 0⟩, ⟨0, 0, 0⟩⟩ = 4 := by
    simp only [spec_h2, Vec3.cross, Vec3.dot]
    norm_num
  have hsub : (Particle.mk ⟨2, 0, 0⟩ ⟨0, 1, 0⟩ ⟨0, 0, 0⟩).pos -
      (Sphere.mk ⟨0, 0, 0⟩ 1).pos = (⟨2, 0, 0⟩ : Vec3) := by
    simp only [vec3_sub, Vec3.mk.injEq]
    norm_num
  intro h
  have hx := congrArg Vec3.x h
  simp only [GRParticle.step, Particle.add_force, Particle.update, hsub, hs, gr_potential,
    hpf, vec3_add, vec3_smul, Vec3.div, vec3_zero] at hx
  norm_num at hx

/-- C1 (amended): no h² is derived from the initial state: every
iteration of `GRParticle::intersect` adds the force
`gr_potential(position - sphere.pos, 1.0)` with the constant 1.0,
whatever the particle's position and velocity, and recurses on the
stepped particle. -/
theorem C1_h2_is_constant_one (s : Sphere) (dt : ℝ) (p : Particle) (n : ℕ) :
    (GRParticle.step s dt p).vel = p.vel + dt • (p.acc + gr_potential (p.pos - s.pos) 1) ∧
    (s.captures (GRParticle.step s dt p) →
      GRParticle.intersectAux s dt (n + 1) p =
        (some (GRParticle.step s dt p).pos, GRParticle.step s dt p)) ∧
    (¬ s.captures (GRParticle.step s dt p) →
      GRParticle.intersectAux s dt (n + 1) p =
        GRParticle.intersectAux s dt n (GRParticle.step s dt p)) := by
  refine ⟨rfl, fun hc => ?_, fun hc => ?_⟩
  · rw [GRParticle.intersectAux]
    simp only [hc, if_true]
  · rw [GRParticle.intersectAux]
    simp only [hc, if_false]

/-! ## C3 -/

/-- C3: each integration step adds the deflection force
-1.5 h² r / |r|⁵ (with the source's h² argument, the constant 1.0) to
the acceleration and performs the semi-implicit Euler update: the new
velocity is vel + acc·dt, the new position uses the already-updated
velocity, and the acceleration is reset to zero. -/
theorem C3_step_semi_implicit_euler (s : Sphere) (dt h2 : ℝ) (p : Particle)
    (hr : 0 < (p.pos - s.pos).norm) :
    gr_potential (p.pos - s.pos) h2 =
      (-1.5 * h2 / (p.pos - s.pos).norm ^ (5 : ℕ)) • (p.pos - s.pos) ∧
    (GRParticle.step s dt p).vel = p.vel + dt • (p.acc + gr_potential (p.pos - s.pos) 1) ∧
    (GRParticle.step s dt p).pos = p.pos + dt • (GRParticle.step s dt p).vel ∧
    (GRParticle.step s dt p).acc = 0 := by
  refine ⟨?_, rfl, rfl, rfl⟩
  rw [gr_potential, gr_pos_fifth_eq_norm_pow]
  simp only [vec3_smul, Vec3.div, Vec3.mk.injEq]
  refine ⟨by ring, by ring, by ring⟩

/-! ## C5 -/

/-- C5: in the sequential `GRScene::render` the pixel writes sit inside
the reporter conditional: on a 1×1 image with the per-pixel color
function returning 1 (into the opaque color type ℕ, blank value 0),
rendering without a reporter leaves the blank pixel, rendering with one
writes the computed color — the two runs differ. -/
theorem C5_reporter_dependent_buffer :
    Starless.GRScene.render_assemble ℕ 1 1 (fun _ _ => 1) none 0 (0, 0) = 0 ∧
    Starless.GRScene.render_assemble ℕ 1 1 (fun _ _ => 1) (some ()) 0 (0, 0) = 1 ∧
    (0 : ℕ) ≠ 1 := by
  exact ⟨rfl, rfl, by norm_num⟩

/-! ## C7 -/

/-- C7: `Camera::new` stores the aspect height/width (it hands
`height as f64 / width as f64` to `Perspective3::new`): at 500×250 with a
90° field of view the stored perspective aspect is 1/2, not the claimed
width/height = 2; `Scene::set_size` with the same dimensions stores 2, so
the two code paths disagree and the claimed invariant fails after
`Camera::new`. -/
theorem C7_aspect_inconsistent :
    (Gargantua.Camera.new 500 250 90).perspective.aspect = 1 / 2 ∧
    (Scene.set_size ⟨Gargantua.Camera.new 500 250 90⟩ 500 250).camera.perspective.aspect = 2 ∧
    (1 / 2 : ℝ) ≠ (500 : ℝ) / 250 := by
  have htan : Real.tan ((90 : ℝ) * (Real.pi / 180) / 2) = 1 := by
    rw [show (90 : ℝ) * (Real.pi / 180) / 2 = Real.pi / 4 by ring]
    exact Real.tan_pi_div_four
  refine ⟨?_, ?_, by norm_num⟩
  · simp only [Gargantua.Camera.new, Perspective.create, Perspective.aspect, htan]
    norm_num
  · simp only [Scene.set_size, Gargantua.Camera.new, Perspective.create,
      Perspective.set_aspect, Perspective.aspect, htan]
    norm_num

/-! ## C8 -/

/-- C8 counterexample: in the starless crate the sphere UV mapping and
the flat renderer's background mapping disagree: for the direction
(1,0,0) (a point on the equator), `Sphere::texture_coords` yields
u = θ/(π/2) = 1 while the background branch of `Scene::render_px` yields
u = θ/π = 1/2. -/
theorem C8_starless_flat_mismatch :
    Starless.Sphere.texture_coords ⟨⟨0, 0, 0⟩, 1⟩ ((⟨0, 0, 0⟩ : Vec3) + ⟨1, 0, 0⟩) ≠
      Starless.Scene.background_uv ⟨1, 0, 0⟩ := by
  have h1 : (Starless.Sphere.texture_coords ⟨⟨0, 0, 0⟩, 1⟩
      ((⟨0, 0, 0⟩ : Vec3) + ⟨1, 0, 0⟩)).1 = 1 := by
    simp only [Starless.Sphere.texture_coords, vec3_add, vec3_sub, Vec3.dot]
    norm_num [Real.sqrt_one, Real.arccos_zero]
    exact div_self (by positivity)
  have h2 : (Starless.Scene.background_uv ⟨1, 0, 0⟩).1 = 1 / 2 := by
    simp only [Starless.Scene.background_uv, cartesian_to_spherical, Vec3.dot]
    norm_num [Real.sqrt_one, Real.arccos_zero]
    field_simp
    ring
  intro h
  have hfst := congrArg Prod.fst h
  rw [h1, h2] at hfst
  norm_num at hfst

/-- C8 (amended): the gargantua crate's sphere UV mapping agrees with the
gargantua background sampler, and the starless sphere UV mapping agrees
with the starless curved renderer's background sampler, for every nonzero
direction; the starless flat renderer's background branch is the odd one
out (see the counterexample, which forces the starless flat renderer's
exclusion from the claim). -/
theorem C8_uv_agreement (c d : Vec3) (r : ℝ) (hd : d ≠ 0) :
    Gargantua.Sphere.texture_coords ⟨c, r⟩ (c + d) = Gargantua.Scene.background_uv d ∧
    Starless.Sphere.texture_coords ⟨c, r⟩ (c + d) = Starless.GRScene.background_uv d := by
  have hsub : (c + d) - c = d := by
    simp only [vec3_add, vec3_sub, Vec3.mk.injEq]
    norm_num
  constructor
  · simp only [Gargantua.Sphere.texture_coords, Gargantua.Scene.background_uv]
    rw [hsub]
  · simp only [Starless.Sphere.texture_coords, Starless.GRScene.background_uv]
    rw [hsub, Prod.mk.injEq]
    refine ⟨?_, rfl⟩
    rw [div_div_eq_mul_div]
    ring

/-- C8 witness: the amended agreement at the unit sphere at the origin
and the direction (1, 0, 0). -/
theorem C8_uv_agreement_witness :
    Gargantua.Sphere.texture_coords ⟨⟨0, 0, 0⟩, 1⟩ ((⟨0, 0, 0⟩ : Vec3) + ⟨1, 0, 0⟩) =
      Gargantua.Scene.background_uv ⟨1, 0, 0⟩ ∧
    Starless.Sphere.texture_coords ⟨⟨0, 0, 0⟩, 1⟩ ((⟨0, 0, 0⟩ : Vec3) + ⟨1, 0, 0⟩) =
      Starless.GRScene.background_uv ⟨1, 0, 0⟩ :=
  C8_uv_agreement ⟨0, 0, 0⟩ ⟨1, 0, 0⟩ 1
    (by intro h; rw [vec3_zero, Vec3.mk.injEq] at h; exact one_ne_zero h.1)

/-- C3 witness: the step theorem at the sphere of radius 1 at the origin,
Δt = 1, h² = 2 and the particle at (1,0,0) with velocity (0,1,0), whose
radial distance 1 is positive. -/
theorem C3_step_witness :
    gr_potential ((Particle.mk ⟨1, 0, 0⟩ ⟨0, 1, 0⟩ ⟨0, 0, 0⟩).pos -
        (Sphere.mk ⟨0, 0, 0⟩ 1).pos) 2 =
      (-1.5 * 2 / ((Particle.mk ⟨1, 0, 0⟩ ⟨0, 1, 0⟩ ⟨0, 0, 0⟩).pos -
          (Sphere.mk ⟨0, 0, 0⟩ 1).pos).norm ^ (5 : ℕ)) •
        ((Particle.mk ⟨1, 0, 0⟩ ⟨0, 1, 0⟩ ⟨0, 0, 0⟩).pos - (Sphere.mk ⟨0, 0, 0⟩ 1).pos) ∧
    (GRParticle.step ⟨⟨0, 0, 0⟩, 1⟩ 1 ⟨⟨1, 0, 0⟩, ⟨0, 1, 0⟩, ⟨0, 0, 0⟩⟩).vel =
      (Particle.mk ⟨1, 0, 0⟩ ⟨0, 1, 0⟩ ⟨0, 0, 0⟩).vel +
        (1 : ℝ) • ((Particle.mk ⟨1, 0, 0⟩ ⟨0, 1, 0⟩ ⟨0, 0, 0⟩).acc +
          gr_potential ((Particle.mk ⟨1, 0, 0⟩ ⟨0, 1, 0⟩ ⟨0, 0, 0⟩).pos -
            (Sphere.mk ⟨0, 0, 0⟩ 1).pos) 1) ∧
    (GRParticle.step ⟨⟨0, 0, 0⟩, 1⟩ 1 ⟨⟨1, 0, 0⟩, ⟨0, 1, 0⟩, ⟨0, 0, 0⟩⟩).pos =
      (Particle.mk ⟨1, 0, 0⟩ ⟨0, 1, 0⟩ ⟨0, 0, 0⟩).pos +
        (1 : ℝ) • (GRParticle.step ⟨⟨0, 0, 0⟩, 1⟩ 1 ⟨⟨1, 0, 0⟩, ⟨0, 1, 0⟩, ⟨0, 0, 0⟩⟩).vel ∧
    (GRParticle.step ⟨⟨0, 0, 0⟩, 1⟩ 1 ⟨⟨1, 0, 0⟩, ⟨0, 1, 0⟩, ⟨0, 0, 0⟩⟩).acc = 0 :=
  C3_step_semi_implicit_euler ⟨⟨0, 0, 0⟩, 1⟩ 1 2 ⟨⟨1, 0, 0⟩, ⟨0, 1, 0⟩, ⟨0, 0, 0⟩⟩
    (by
      have h : ((Particle.mk ⟨1, 0, 0⟩ ⟨0, 1, 0⟩ ⟨0, 0, 0⟩).pos -
          (Sphere.mk ⟨0, 0, 0⟩ 1).pos) = (⟨1, 0, 0⟩ : Vec3) := by
        simp only [vec3_sub, Vec3.mk.injEq]
        norm_num
      rw [h, Vec3.norm, show (Vec3.mk 1 0 0).dot ⟨1, 0, 0⟩ = 1 from by simp [Vec3.dot],
        Real.sqrt_one]
      norm_num)

/-! ## C6 -/

/-- C6: `Sphere::intersect` returns none exactly when the discriminant is
negative (the squared perpendicular distance d² exceeds the squared
radius) or both quadratic roots t0 = adj − thc and t1 = adj + thc are
negative; otherwise it returns the smallest non-negative root — in
particular every returned distance is non-negative, and when both roots
are non-negative the smaller one is returned. -/
theorem C6_sphere_intersect_roots (s : Sphere) (ray : Ray) :
    let l := s.pos - ray.origin
    let adj2 := l.dot ray.direction
    let d2 := l.dot l - adj2 * adj2
    let r2 := s.radius * s.radius
    let thc := Real.sqrt (r2 - d2)
    let t0 := adj2 - thc
    let t1 := adj2 + thc
    (s.intersect ray = none ↔ (r2 < d2 ∨ (t0 < 0 ∧ t1 < 0))) ∧
    ∀ t, s.intersect ray = some t →
      (0 ≤ t ∧ (t = t0 ∨ t = t1) ∧ ∀ u, (u = t0 ∨ u = t1) → 0 ≤ u → t ≤ u) := by
  simp only [Sphere.intersect]
  split_ifs with h1 h2 h3 h4 h5
  · exact ⟨by simp [h1], fun t ht => by cases ht⟩
  · exact ⟨by simp [h2], fun t ht => by cases ht⟩
  · refine ⟨⟨fun hnone => hnone.elim,
      fun hrhs => hrhs.elim (fun a => absurd a h1) (fun a => absurd a h2)⟩, fun t ht => ?_⟩
    obtain rfl : _ = t := (Option.some.injEq _ _).mp ht
    have ht1 := fun hlt => h2 ⟨h3, hlt⟩
    refine ⟨le_of_not_lt ht1, Or.inr rfl, fun u hu hu0 => ?_⟩
    rcases hu with rfl | rfl
    · exact absurd hu0 (not_le.mpr h3)
    · exact le_refl _
  · refine ⟨⟨fun hnone => hnone.elim,
      fun hrhs => hrhs.elim (fun a => absurd a h1) (fun a => absurd a h2)⟩, fun t ht => ?_⟩
    obtain rfl : _ = t := (Option.some.injEq _ _).mp ht
    refine ⟨le_of_not_lt h3, Or.inl rfl, fun u hu hu0 => ?_⟩
    rcases hu with rfl | rfl
    · exact le_refl _
    · exact absurd hu0 (not_le.mpr h4)
  · refine ⟨⟨fun hnone => hnone.elim,
      fun hrhs => hrhs.elim (fun a => absurd a h1) (fun a => absurd a h2)⟩, fun t ht => ?_⟩
    obtain rfl : _ = t := (Option.some.injEq _ _).mp ht
    refine ⟨le_of_not_lt h3, Or.inl rfl, fun u hu hu0 => ?_⟩
    rcases hu with rfl | rfl
    · exact le_refl _
    · exact le_of_lt h5
  · refine ⟨⟨fun hnone => hnone.elim,
      fun hrhs => hrhs.elim (fun a => absurd a h1) (fun a => absurd a h2)⟩, fun t ht => ?_⟩
    obtain rfl : _ = t := (Option.some.injEq _ _).mp ht
    refine ⟨le_of_not_lt h4, Or.inr rfl, fun u hu hu0 => ?_⟩
    rcases hu with rfl | rfl
    · exact le_of_not_lt h5
    · exact le_refl _

/-! ## C4: the integration loop's first-capture semantics -/

open Classical in
/-- Unfolding of one loop iteration of `GRParticle::intersect`. -/
theorem intersectAux_succ (s : Sphere) (dt : ℝ) (n : ℕ) (p : Particle) :
    GRParticle.intersectAux s dt (n + 1) p =
      if s.captures (GRParticle.step s dt p)
      then (some (GRParticle.step s dt p).pos, GRParticle.step s dt p)
      else GRParticle.intersectAux s dt n (GRParticle.step s dt p) := by
  rw [GRParticle.intersectAux]

/-- The loop returns none exactly when no prefix of `max_iter` steps is
captured (the capture test runs after each update, so step indices start
at 1). -/
theorem intersectAux_none_iff (s : Sphere) (dt : ℝ) :
    ∀ (n : ℕ) (p : Particle),
      ((GRParticle.intersectAux s dt n p).1 = none ↔
        ∀ k, k < n → ¬ s.captures ((GRParticle.step s dt)^[k + 1] p)) := by
  intro n
  induction n with
  | zero => intro p; simp [GRParticle.intersectAux]
  | succ n ih =>
    intro p
    rw [intersectAux_succ]
    by_cases hc : s.captures (GRParticle.step s dt p)
    · rw [if_pos hc]
      refine ⟨fun h => by simp at h, fun H => ?_⟩
      exact absurd (show s.captures ((GRParticle.step s dt)^[0 + 1] p) by simpa using hc)
        (H 0 (Nat.succ_pos n))
    · rw [if_neg hc, ih (GRParticle.step s dt p)]
      constructor
      · intro H k hk
        match k with
        | 0 => simpa using hc
        | j + 1 =>
          have := H j (by omega)
          simpa [Function.iterate_succ_apply] using this
      · intro H k hk
        have := H (k + 1) (by omega)
        simpa [Function.iterate_succ_apply] using this

/-- The loop returns some v exactly when some step index k+1 ≤ max_iter is
the first captured one and v is the position there. -/
theorem intersectAux_some_iff (s : Sphere) (dt : ℝ) :
    ∀ (n : ℕ) (p : Particle) (v : Vec3),
      ((GRParticle.intersectAux s dt n p).1 = some v ↔
        ∃ k, k < n ∧ s.captures ((GRParticle.step s dt)^[k + 1] p) ∧
          (∀ j, j < k → ¬ s.captures ((GRParticle.step s dt)^[j + 1] p)) ∧
          v = ((GRParticle.step s dt)^[k + 1] p).pos) := by
  intro n
  induction n with
  | zero => intro p v; simp [GRParticle.intersectAux]
  | succ n ih =>
    intro p v
    rw [intersectAux_succ]
    by_cases hc : s.captures (GRParticle.step s dt p)
    · rw [if_pos hc]
      constructor
      · intro h
        have hv : (GRParticle.step s dt p).pos = v := by simpa using h
        exact ⟨0, Nat.succ_pos n, by simpa using hc,
          fun j hj => absurd hj (Nat.not_lt_zero j), by simpa using hv.symm⟩
      · rintro ⟨k, hk, hcap, hmin, hv⟩
        match k with
        | 0 =>
          have : v = (GRParticle.step s dt p).pos := by simpa using hv
          simp [this]
        | j + 1 =>
          exact absurd hc (by simpa using hmin 0 (Nat.succ_pos j))
    · rw [if_neg hc, ih]
      constructor
      · rintro ⟨k, hk, hcap, hmin, hv⟩
        refine ⟨k + 1, by omega, by simpa [Function.iterate_succ_apply] using hcap, ?_,
          by simpa [Function.iterate_succ_apply] using hv⟩
        intro j hj
        match j with
        | 0 => simpa using hc
        | i + 1 =>
          have := hmin i (by omega)
          simpa [Function.iterate_succ_apply] using this
      · rintro ⟨k, hk, hcap, hmin, hv⟩
        match k with
        | 0 => exact absurd (by simpa using hcap) hc
        | j + 1 =>
          refine ⟨j, by omega, by simpa [Function.iterate_succ_apply] using hcap, ?_,
            by simpa [Function.iterate_succ_apply] using hv⟩
          intro i hi
          have := hmin (i + 1) (by omega)
          simpa [Function.iterate_succ_apply] using this

/-- C4: `GRParticle::intersect` returns the current position at the first
step after which the particle is within the sphere radius, returns none
when `max_iter` steps complete without capture — in particular always
none for `max_iter = 0`, where the particle is also left untouched — and
in the none case `GRScene::render_px` samples the background at the UV of
the particle's final (mutated) velocity, not the original ray direction. -/
theorem C4_first_capture_and_background (s : Sphere) (dt : ℝ) (p : Particle) (n : ℕ)
    (Color : Type) (sphere_uv bg_uv : ℝ × ℝ → Color) (ray : Ray) :
    GRParticle.intersectAux s dt 0 p = (none, p) ∧
    ((GRParticle.intersectAux s dt n p).1 = none ↔
      ∀ k, k < n → ¬ s.captures ((GRParticle.step s dt)^[k + 1] p)) ∧
    (∀ v, (GRParticle.intersectAux s dt n p).1 = some v ↔
      ∃ k, k < n ∧ s.captures ((GRParticle.step s dt)^[k + 1] p) ∧
        (∀ j, j < k → ¬ s.captures ((GRParticle.step s dt)^[j + 1] p)) ∧
        v = ((GRParticle.step s dt)^[k + 1] p).pos) ∧
    ((GRParticle.intersectAux s dt n (Particle.from_ray ray)).1 = none →
      Starless.GRScene.render_px Color s sphere_uv bg_uv dt n ray =
        bg_uv (Starless.GRScene.background_uv
          ((GRParticle.intersectAux s dt n (Particle.from_ray ray)).2.vel))) := by
  refine ⟨rfl, intersectAux_none_iff s dt n p, fun v => intersectAux_some_iff s dt n p v,
    fun hnone => ?_⟩
  simp [Starless.GRScene.render_px, hnone]

/-! ## C10: primary-ray construction -/

/-- The identity isometry's inverse point transform is the identity. -/
theorem identity_inverse_transform (p : Vec3) :
    Isometry3.identity.inverse_transform_point p = p := by
  simp only [Isometry3.inverse_transform_point, Isometry3.identity, Quat.conjugate, Quat.rotate,
    Quat.mul, vec3_sub, Vec3.mk.injEq]
  norm_num

/-- The identity isometry's vector transform is the identity. -/
theorem identity_transform_vector (v : Vec3) :
    Isometry3.identity.transform_vector v = v := by
  simp only [Isometry3.transform_vector, Isometry3.identity, Quat.conjugate, Quat.rotate,
    Quat.mul, Vec3.mk.injEq]
  norm_num

/-- C10 (amended): gargantua's `Camera::create_primary` follows the
described construction — pixel to NDC in [-1,1]² on the near (z = -1) and
far (z = +1) planes, both unprojected through the inverse perspective and
the inverse camera pose, ray origin the near point, direction the unit
vector from near point to far point; the starless crate's
`Camera::create_primary`, by contrast, forward-projects a z = 0 point and
the fixed direction (0,0,-1) (see the counterexample). -/
theorem C10_gargantua_primary_ray (cam : Camera) (px py : ℕ)
    (hx : px < cam.width) (hy : py < cam.height) :
    let ndsx := (px : ℝ) / (cam.width : ℝ) * 2 - 1
    let ndsy := (py : ℝ) / (cam.height : ℝ) * 2 - 1
    let near := cam.isometry.inverse_transform_point
      (cam.perspective.unproject_point ⟨ndsx, ndsy, -1⟩)
    let far := cam.isometry.inverse_transform_point
      (cam.perspective.unproject_point ⟨ndsx, ndsy, 1⟩)
    (-1 ≤ ndsx ∧ ndsx ≤ 1 ∧ -1 ≤ ndsy ∧ ndsy ≤ 1) ∧
    Gargantua.Camera.create_primary cam px py = ⟨near, (far - near).normalize⟩ := by
  have hw : (0 : ℝ) < (cam.width : ℝ) := by
    exact_mod_cast lt_of_le_of_lt (Nat.zero_le px) hx
  have hh : (0 : ℝ) < (cam.height : ℝ) := by
    exact_mod_cast lt_of_le_of_lt (Nat.zero_le py) hy
  have hx1 : (0 : ℝ) ≤ (px : ℝ) / (cam.width : ℝ) := by positivity
  have hx2 : (px : ℝ) / (cam.width : ℝ) ≤ 1 := by
    rw [div_le_one hw]
    exact_mod_cast le_of_lt hx
  have hy1 : (0 : ℝ) ≤ (py : ℝ) / (cam.height : ℝ) := by positivity
  have hy2 : (py : ℝ) / (cam.height : ℝ) ≤ 1 := by
    rw [div_le_one hh]
    exact_mod_cast le_of_lt hy
  exact ⟨⟨by linarith, by linarith, by linarith, by linarith⟩, rfl⟩

/-- C10 witness: the amended theorem at a 2×2 camera with a 90° field of
view and the pixel (1, 1). -/
theorem C10_gargantua_primary_ray_witness :
    let cam := Gargantua.Camera.new 2 2 90
    let ndsx := ((1 : ℕ) : ℝ) / (cam.width : ℝ) * 2 - 1
    let ndsy := ((1 : ℕ) : ℝ) / (cam.height : ℝ) * 2 - 1
    let near := cam.isometry.inverse_transform_point
      (cam.perspective.unproject_point ⟨ndsx, ndsy, -1⟩)
    let far := cam.isometry.inverse_transform_point
      (cam.perspective.unproject_point ⟨ndsx, ndsy, 1⟩)
    (-1 ≤ ndsx ∧ ndsx ≤ 1 ∧ -1 ≤ ndsy ∧ ndsy ≤ 1) ∧
    Gargantua.Camera.create_primary cam 1 1 = ⟨near, (far - near).normalize⟩ :=
  C10_gargantua_primary_ray (Gargantua.Camera.new 2 2 90) 1 1
    (show 1 < 2 by norm_num) (show 1 < 2 by norm_num)

/-- C10 counterexample: at a 2×2 starless camera (identity pose, znear
0.01, zfar 200) and pixel (1,1) — whose NDC coordinates are
2·(1/2) − 1 = 0 — the ray starless's `Camera::create_primary` returns
does not have the claimed direction (the unit vector from the unprojected
near point to the unprojected far point, which here is (0,0,-1)): its z
component is m22 = 200.01/(0.01 − 200) ≈ −1.0001. -/
theorem C10_starless_not_unprojection :
    (Starless.Camera.create_primary (Starless.Camera.new 2 2 90) 1 1).direction ≠
      (((Starless.Camera.new 2 2 90).isometry.inverse_transform_point
          ((Starless.Camera.new 2 2 90).perspective.unproject_point ⟨0, 0, 1⟩)) -
        ((Starless.Camera.new 2 2 90).isometry.inverse_transform_point
          ((Starless.Camera.new 2 2 90).perspective.unproject_point ⟨0, 0, -1⟩))).normalize := by
  have hiso : (Starless.Camera.new 2 2 90).isometry = Isometry3.identity := rfl
  have hfar : (Starless.Camera.new 2 2 90).perspective.unproject_point ⟨0, 0, 1⟩ =
      ⟨0, 0, -200⟩ := by
    simp only [Starless.Camera.new, Perspective.create, Perspective.unproject_point,
      Vec3.mk.injEq]
    norm_num
  have hnear : (Starless.Camera.new 2 2 90).perspective.unproject_point ⟨0, 0, -1⟩ =
      ⟨0, 0, -1 / 100⟩ := by
    simp only [Starless.Camera.new, Perspective.create, Perspective.unproject_point,
      Vec3.mk.injEq]
    norm_num
  have hdir : (Starless.Camera.create_primary (Starless.Camera.new 2 2 90) 1 1).direction =
      ⟨0, 0, (200 + 0.01) / (0.01 - 200)⟩ := by
    simp only [Starless.Camera.create_primary, Starless.Camera.transform_ray,
      Starless.Camera.rotate, hiso, identity_transform_vector, Starless.Camera.new,
      Perspective.project_vector, Perspective.create, Vec3.mk.injEq]
    norm_num
  have hrhs : (((Starless.Camera.new 2 2 90).isometry.inverse_transform_point
          ((Starless.Camera.new 2 2 90).perspective.unproject_point ⟨0, 0, 1⟩)) -
        ((Starless.Camera.new 2 2 90).isometry.inverse_transform_point
          ((Starless.Camera.new 2 2 90).perspective.unproject_point ⟨0, 0, -1⟩))).normalize =
      ⟨0, 0, -1⟩ := by
    rw [hiso, hfar, hnear, identity_inverse_transform, identity_inverse_transform]
    have hsub2 : (Vec3.mk 0 0 (-200)) - ⟨0, 0, -1 / 100⟩ = ⟨0, 0, -(19999 / 100)⟩ := by
      simp only [vec3_sub, Vec3.mk.injEq]
      norm_num
    rw [hsub2, Vec3.normalize, Vec3.norm]
    rw [show (Vec3.mk 0 0 (-(19999 / 100))).dot ⟨0, 0, -(19999 / 100)⟩ = (19999 / 100) ^ 2
      from by simp only [Vec3.dot]; norm_num]
    rw [Real.sqrt_sq (by norm_num : (0 : ℝ) ≤ 19999 / 100)]
    simp only [Vec3.div, Vec3.mk.injEq]
    norm_num
  rw [hdir, hrhs]
  intro h
  rw [Vec3.mk.injEq] at h
  have := h.2.2
  norm_num at this

/-! ## C2: the tile decomposition covers every pixel exactly once -/

/-- From a started iterator state at cursor (x, y), the remaining emissions
are exactly the row-major block positions of index y * w + x + 1 and up
(position index k stands for the coordinate (sx + k % w, sy + k / w)). -/
theorem dimIterator_toList_started (w h sx sy : ℕ) :
    ∀ (fuel x y : ℕ), x < w → y < h →
      w * h - (y * w + x + 1) ≤ fuel →
      DimIterator.toList fuel ⟨w, h, x, y, sx, sy, true, false⟩ =
        (List.range' (y * w + x + 1) (w * h - (y * w + x + 1))).map
          (fun k => (sx + k % w, sy + k / w)) := by
  intro fuel
  induction fuel with
  | zero =>
    intro x y hx hy hfuel
    rw [show w * h - (y * w + x + 1) = 0 by omega]
    simp [DimIterator.toList]
  | succ fuel ih =>
    intro x y hx hy hfuel
    by_cases hxe : w ≤ x + 1
    · by_cases hye : h ≤ y + 1
      · have hnext : DimIterator.next ⟨w, h, x, y, sx, sy, true, false⟩ = none := by
          simp [DimIterator.next, show ¬(w = 0 ∨ h = 0) by omega, hxe, hye]
        have h3 : (y + 1) * w = y * w + w := Nat.succ_mul y w
        have h5 : (y + 1) * w = h * w := by rw [show y + 1 = h by omega]
        have h4 : w * h = h * w := Nat.mul_comm w h
        simp only [DimIterator.toList, hnext]
        rw [show w * h - (y * w + x + 1) = 0 by omega]
        simp
      · have hnext : DimIterator.next ⟨w, h, x, y, sx, sy, true, false⟩ =
            some ((sx + 0, sy + (y + 1)), ⟨w, h, 0, y + 1, sx, sy, true, false⟩) := by
          simp [DimIterator.next, show ¬(w = 0 ∨ h = 0) by omega, hxe, hye]
        have hw0 : 0 < w := by omega
        have hsm : (y + 1) * w = y * w + w := Nat.succ_mul y w
        have hm1 : y * w + x + 1 = (y + 1) * w := by omega
        have hcomm : w * h = h * w := Nat.mul_comm w h
        have hlt : (y + 1) * w < h * w := mul_lt_mul_of_pos_right (by omega) hw0
        have hmod : (y * w + x + 1) % w = 0 := by
          rw [hm1]
          exact Nat.mul_mod_left (y + 1) w
        have hdiv : (y * w + x + 1) / w = y + 1 := by
          rw [hm1]
          exact Nat.mul_div_cancel (y + 1) hw0
        have hsm2 : (y + 1) * w + w = (y + 2) * w := (Nat.succ_mul (y + 1) w).symm
        simp only [DimIterator.toList, hnext]
        rw [ih 0 (y + 1) hw0 (by omega) (by omega)]
        rw [show w * h - (y * w + x + 1) = (w * h - (y * w + x + 1) - 1) + 1 by omega,
          List.range'_succ, List.map_cons]
        congr 1
        · rw [hmod, hdiv]
        · congr 1
          congr 1
          · omega
          · omega
    · have hnext : DimIterator.next ⟨w, h, x, y, sx, sy, true, false⟩ =
          some ((sx + (x + 1), sy + y), ⟨w, h, x + 1, y, sx, sy, true, false⟩) := by
        simp [DimIterator.next, show ¬(w = 0 ∨ h = 0) by omega, hxe]
      have hw0 : 0 < w := by omega
      have hsm : (y + 1) * w = y * w + w := Nat.succ_mul y w
      have hcomm : w * h = h * w := Nat.mul_comm w h
      have hle : (y + 1) * w ≤ h * w := Nat.mul_le_mul_right w (by omega)
      have hmod : (y * w + x + 1) % w = x + 1 := by
        rw [show y * w + x + 1 = (x + 1) + y * w from by ring,
          Nat.add_mul_mod_self_right, Nat.mod_eq_of_lt (by omega)]
      have hdiv : (y * w + x + 1) / w = y := by
        rw [show y * w + x + 1 = (x + 1) + y * w from by ring,
          Nat.add_mul_div_right _ _ hw0, Nat.div_eq_of_lt (by omega)]
        omega
      simp only [DimIterator.toList, hnext]
      rw [ih (x + 1) y (by omega) hy (by omega)]
      rw [show w * h - (y * w + x + 1) = (w * h - (y * w + x + 1) - 1) + 1 by omega,
        List.range'_succ, List.map_cons, hmod, hdiv]
      have hr : List.range' (y * w + (x + 1) + 1) (w * h - (y * w + (x + 1) + 1)) =
          List.range' (y * w + x + 1 + 1) (w * h - (y * w + x + 1) - 1) := by
        rw [show w * h - (y * w + (x + 1) + 1) = w * h - (y * w + x + 1) - 1 by omega]
        rw [show y * w + (x + 1) + 1 = y * w + x + 1 + 1 by omega]
      rw [hr]

/-- The items of `DimIterator::create(w, h, sx, sy)` are the row-major
block coordinates, indexed 0 to w * h - 1. -/
theorem dimIterator_items_eq (w h sx sy : ℕ) :
    DimIterator.items w h sx sy =
      (List.range' 0 (w * h)).map (fun k => (sx + k % w, sy + k / w)) := by
  rcases Nat.eq_zero_or_pos w with hw | hw
  · subst hw
    simp [DimIterator.items, DimIterator.toList]
  rcases Nat.eq_zero_or_pos h with hh | hh
  · subst hh
    simp [DimIterator.items, DimIterator.toList]
  have hwh : 0 < w * h := Nat.mul_pos hw hh
  have hnext : DimIterator.next (DimIterator.create w h sx sy) =
      some ((sx, sy), ⟨w, h, 0, 0, sx, sy, true, false⟩) := by
    simp [DimIterator.next, DimIterator.create, show ¬(w = 0 ∨ h = 0) by omega]
  rw [DimIterator.items, show w * h = (w * h - 1) + 1 by omega]
  simp only [DimIterator.toList, hnext]
  rw [dimIterator_toList_started w h sx sy (w * h - 1) 0 0 hw hh (by omega)]
  rw [List.range'_succ, List.map_cons]
  congr 1
  · simp
  · congr 1
    congr 1
    · omega
    · omega

/-- Membership in a tile's item list is exactly membership in its pixel
block. -/
theorem dimIterator_items_mem (w h sx sy a b : ℕ) :
    ((a, b) ∈ DimIterator.items w h sx sy) ↔
      (sx ≤ a ∧ a < sx + w ∧ sy ≤ b ∧ b < sy + h) := by
  rw [dimIterator_items_eq]
  simp only [List.mem_map, List.mem_range'_1, Prod.mk.injEq]
  constructor
  · rintro ⟨k, ⟨hk0, hk⟩, ha, hb⟩
    have hwh : 0 < w * h := by omega
    have hw : 0 < w := by
      rcases Nat.eq_zero_or_pos w with h0 | h0
      · subst h0; simp at hwh
      · exact h0
    have hmod := Nat.mod_lt k hw
    have hdiv : k / w < h := by
      rw [Nat.div_lt_iff_lt_mul hw]
      have hcomm : w * h = h * w := Nat.mul_comm w h
      omega
    refine ⟨?_, ?_, ?_, ?_⟩
    · rw [← ha]; exact Nat.le_add_right sx _
    · rw [← ha]; exact Nat.add_lt_add_left hmod sx
    · rw [← hb]; exact Nat.le_add_right sy _
    · rw [← hb]; exact Nat.add_lt_add_left hdiv sy
  · rintro ⟨ha1, ha2, hb1, hb2⟩
    have hw : 0 < w := by omega
    have hh : 0 < h := by omega
    refine ⟨(b - sy) * w + (a - sx), ⟨by omega, ?_⟩, ?_, ?_⟩
    · have e1 : (b - sy) * w ≤ (h - 1) * w := Nat.mul_le_mul_right w (by omega)
      have e2 : (h - 1) * w + w = h * w := by
        rw [← Nat.succ_mul]
        congr 1
        omega
      have e3 : w * h = h * w := Nat.mul_comm w h
      omega
    · rw [show (b - sy) * w + (a - sx) = (a - sx) + (b - sy) * w from by ring,
        Nat.add_mul_mod_self_right, Nat.mod_eq_of_lt (by omega)]
      omega
    · rw [show (b - sy) * w + (a - sx) = (a - sx) + (b - sy) * w from by ring,
        Nat.add_mul_div_right _ _ hw, Nat.div_eq_of_lt (by omega)]
      omega

/-- A tile's item list has no duplicates. -/
theorem dimIterator_items_nodup (w h sx sy : ℕ) :
    (DimIterator.items w h sx sy).Nodup := by
  rw [dimIterator_items_eq]
  refine List.Nodup.map ?_ (List.nodup_range' 0 (w * h))
  intro k k' heq
  rw [Prod.mk.injEq] at heq
  have h1 : k % w = k' % w := by omega
  have h2 : k / w = k' / w := by omega
  have e1 := Nat.div_add_mod k w
  have e2 := Nat.div_add_mod k' w
  rw [h1, h2] at e1
  omega

/-- A coordinate is sent by some tile task exactly when it is an in-bounds
pixel. -/
theorem render_messages_mem (width height a b : ℕ) :
    ((a, b) ∈ render_messages width height) ↔ (a < width ∧ b < height) := by
  simp only [render_messages, List.mem_flatMap, List.mem_range, dimIterator_items_mem]
  constructor
  · rintro ⟨cy, hcy, cx, hcx, h1, h2, h3, h4⟩
    omega
  · rintro ⟨ha, hb⟩
    exact ⟨b / 32, by omega, a / 32, by omega, by omega, by omega, by omega, by omega⟩

/-- No coordinate is sent twice across all tiles. -/
theorem render_messages_nodup (width height : ℕ) :
    (render_messages width height).Nodup := by
  rw [render_messages, List.nodup_flatMap]
  refine ⟨fun cy hcy => ?_, ?_⟩
  · rw [List.nodup_flatMap]
    refine ⟨fun cx hcx => dimIterator_items_nodup _ _ _ _, ?_⟩
    refine (List.pairwise_lt_range _).imp ?_
    intro cx cx' hlt
    simp only [Function.onFun, List.Disjoint]
    intro p hp1 hp2
    obtain ⟨pa, pb⟩ := p
    rw [dimIterator_items_mem] at hp1 hp2
    omega
  · refine (List.pairwise_lt_range _).imp ?_
    intro cy cy' hlt
    simp only [Function.onFun, List.Disjoint]
    intro p hp1 hp2
    simp only [List.mem_flatMap, List.mem_range] at hp1 hp2
    obtain ⟨pa, pb⟩ := p
    obtain ⟨cx, hcx, hmem⟩ := hp1
    obtain ⟨cx', hcx', hmem'⟩ := hp2
    rw [dimIterator_items_mem] at hmem hmem'
    omega

/-- The count of an element does not depend on which lawful
boolean-equality instance `List.count` uses. -/
theorem count_lawful_eq {α : Type} (inst1 inst2 : BEq α) (h1 : @LawfulBEq α inst1)
    (h2 : @LawfulBEq α inst2) (l : List α) (a : α) :
    @List.count α inst1 a l = @List.count α inst2 a l := by
  induction l with
  | nil => rfl
  | cons q l ih =>
    rw [@List.count_cons _ inst1, @List.count_cons _ inst2, ih]
    by_cases hqp : q = a
    · subst hqp
      rw [@beq_self_eq_true _ inst1 h1, @beq_self_eq_true _ inst2 h2]
    · rw [(@beq_eq_false_iff_ne _ inst1 h1 q a).mpr hqp,
        (@beq_eq_false_iff_ne _ inst2 h2 q a).mpr hqp]

/-- The boolean equality derived from decidable equality is lawful. -/
theorem lawfulBEq_ofDecidableEq (α : Type) [DecidableEq α] :
    @LawfulBEq α instBEqOfDecidableEq := by
  constructor
  · intro a b h
    simpa using of_decide_eq_true h
  · intro a
    simp [instBEqOfDecidableEq]

/-- C2: for every image with width ≥ 1 and height ≥ 1, the tile
decomposition of `render` emits every in-bounds pixel coordinate exactly
once across all tiles, emits nothing out of bounds, and consequently the
consumer's miss counter is zero when `render` returns. -/
theorem C2_tiling_exact_cover (width height : ℕ) (hw : 1 ≤ width) (hh : 1 ≤ height) :
    (∀ a b, a < width → b < height → (render_messages width height).count (a, b) = 1) ∧
    (∀ a b, (a, b) ∈ render_messages width height → a < width ∧ b < height) ∧
    render_misses width height = 0 := by
  refine ⟨fun a b ha hb => ?_, fun a b hmem => (render_messages_mem width height a b).mp hmem, ?_⟩
  · have hbridge := count_lawful_eq (inferInstance : BEq (ℕ × ℕ))
      (@instBEqOfDecidableEq (ℕ × ℕ) inferInstance)
      (inferInstance : LawfulBEq (ℕ × ℕ))
      (lawfulBEq_ofDecidableEq (ℕ × ℕ))
      (render_messages width height) (a, b)
    rw [hbridge]
    exact List.count_eq_one_of_mem (render_messages_nodup width height)
      ((render_messages_mem width height a b).mpr ⟨ha, hb⟩)
  · rw [render_misses, List.length_eq_zero, List.filter_eq_nil_iff]
    rintro ⟨a, b⟩ hmem
    have hin := (render_messages_mem width height a b).mp hmem
    simp [hin.1, hin.2]

/-- C2 witness: the exact-cover theorem at a 33×33 image, whose
decomposition uses two tile columns and two tile rows, one of each
clipped to a single pixel. -/
theorem C2_tiling_exact_cover_witness :
    (∀ a b, a < 33 → b < 33 → (render_messages 33 33).count (a, b) = 1) ∧
    (∀ a b, (a, b) ∈ render_messages 33 33 → a < 33 ∧ b < 33) ∧
    render_misses 33 33 = 0 :=
  C2_tiling_exact_cover 33 33 (by norm_num) (by norm_num)
